import Mathlib

/-!
Verification of the HPU paged-attention core (vllm-gaudi).

Shallow embedding of `vllm/hpu/ops.py` (batch2block, block2batch,
block_softmax, flat_pa, prompt_attention) and of the constructor checks in
`vllm/attention/backends/hpu_attn.py` (HPUMLAImpl.__init__,
HPUAttentionImpl.__init__).

Modelling conventions:
- A tensor is a curried function over `Fin` index types with entries in `ℚ`.
- Attention scores may be masked by a bias of value minus infinity; those
  live in `WithBot ℚ` (`⊥` plays the role of `-inf`).
- `torch.exp` is an external transcendental kernel; it is embedded as a
  parameter `E : WithBot ℚ → ℚ` of every function that exponentiates.
  Theorems state the properties of `E` they rely on (for example `E ⊥ = 0`,
  embedding `exp (-inf) = 0`).
- The singleton query-length dimension that `flat_pa` introduces with
  `unsqueeze(-2)` and removes with `squeeze(-2)` is dropped throughout.
- Subtracting the global maximum when every score is `-inf` would produce
  NaN in floating point; theorems about masked rows assume a finite global
  maximum (at least one unmasked score), which is the only regime the
  rational model represents.
-/

namespace VllmHpu

/-- Embedding of `batch2block(tensor, block_mapping)` from `vllm/hpu/ops.py`:
the tensor is viewed as (batch rows × flattened rest) and multiplied by the
mapping matrix; a row of the result is the mapping-weighted combination of
batch rows.  The flattened rest is modelled as a ℚ-module `V`. -/
def batch2block {nb bs : ℕ} {V : Type} [AddCommMonoid V] [Module ℚ V]
    (block_mapping : Fin nb → Fin bs → ℚ) (x : Fin bs → V) : Fin nb → V :=
  fun i => ∑ j, block_mapping i j • x j

/-- Embedding of `block2batch(tensor, block_mapping)` from `vllm/hpu/ops.py`:
multiplication by the transpose of the mapping matrix. -/
def block2batch {nb bs : ℕ} {V : Type} [AddCommMonoid V] [Module ℚ V]
    (block_mapping : Fin nb → Fin bs → ℚ) (x : Fin nb → V) : Fin bs → V :=
  fun j => ∑ i, block_mapping i j • x i

/-- The mapping-matrix invariant of the spec: `M` is {0,1}-valued with exactly
one nonzero per block row, the nonzero of row `i` sitting in column `ow i`
(`ow` assigns each block to its batch element). -/
def IsOneHot {nb bs : ℕ} (M : Fin nb → Fin bs → ℚ) (ow : Fin nb → Fin bs) : Prop :=
  ∀ i j, M i j = if j = ow i then 1 else 0

instance decIsOneHot {nb bs : ℕ} (M : Fin nb → Fin bs → ℚ)
    (ow : Fin nb → Fin bs) : Decidable (IsOneHot M ow) :=
  inferInstanceAs (Decidable (∀ i j, M i j = if j = ow i then 1 else 0))

/-- Global maximum of a score tensor, as in `block_softmax`:
`attn.amax(tail_dims).amax()` takes one maximum over every entry.  On the
masked domain `WithBot ℚ` the empty maximum is `⊥`. -/
def gmax {nb : ℕ} {R K : Type} [Fintype R] [Fintype K]
    (attn : Fin nb → R → K → WithBot ℚ) : WithBot ℚ :=
  Finset.univ.sup fun p : Fin nb × R × K => attn p.1 p.2.1 p.2.2

/-- Subtraction of the global maximum from one score, `attn.sub_(attn_max)`.
A masked score stays masked.  When the maximum itself is `⊥` (every score
masked) floating point would give NaN; the model returns `⊥` there and
theorems touching that case assume a finite maximum. -/
def subMax (x m : WithBot ℚ) : WithBot ℚ :=
  WithBot.recBotCoe ⊥ (fun mq => WithBot.map (fun v => v - mq) x) m

/-- The exponentiated, max-shifted scores of `block_softmax`
(`attn.sub_(attn_max); attn = attn.exp_()`). -/
def bsExp (E : WithBot ℚ → ℚ) {nb : ℕ} {R K : Type} [Fintype R] [Fintype K]
    (attn : Fin nb → R → K → WithBot ℚ) : Fin nb → R → K → ℚ :=
  fun i r k => E (subMax (attn i r k) (gmax attn))

/-- Per-block sums of the exponentiated scores over the last dimension,
`sums = attn.sum(dim=-1).unsqueeze(-1)`. -/
def bsSums (E : WithBot ℚ → ℚ) {nb : ℕ} {R K : Type} [Fintype R] [Fintype K]
    (attn : Fin nb → R → K → WithBot ℚ) : Fin nb → R → ℚ :=
  fun i r => ∑ k, bsExp E attn i r k

/-- The softmax denominator of `block_softmax`: the per-block sums are folded
to per-batch totals (`block2batch`), redistributed to every block
(`batch2block`), and guarded with `sums.add_(1.0e-12)`. -/
def bsDenom (E : WithBot ℚ → ℚ) {nb bs : ℕ} {R K : Type} [Fintype R] [Fintype K]
    (block_mapping : Fin nb → Fin bs → ℚ)
    (attn : Fin nb → R → K → WithBot ℚ) : Fin nb → R → ℚ :=
  fun i r =>
    batch2block block_mapping (block2batch block_mapping (bsSums E attn)) i r
      + (1e-12 : ℚ)

/-- Embedding of `block_softmax(batch_size, attn, block_mapping)` from
`vllm/hpu/ops.py` (the `batch_size` argument is unused by the source body and
is implicit in the mapping matrix here): subtract the global maximum,
exponentiate, and divide by the block-folded, epsilon-guarded denominator. -/
def block_softmax (E : WithBot ℚ → ℚ) {nb bs : ℕ} {R K : Type}
    [Fintype R] [Fintype K]
    (block_mapping : Fin nb → Fin bs → ℚ)
    (attn : Fin nb → R → K → WithBot ℚ) : Fin nb → R → K → ℚ :=
  fun i r k => bsExp E attn i r k / bsDenom E block_mapping attn i r

/-- Index arithmetic of `unflatten(dim, (m, n))` (row-major): the first
factor of the split index. -/
def fdiv {m n : ℕ} (f : Fin (m * n)) : Fin m :=
  ⟨f.1 / n, Nat.div_lt_of_lt_mul (Nat.mul_comm m n ▸ f.2)⟩

/-- Index arithmetic of `unflatten(dim, (m, n))` (row-major): the second
factor of the split index. -/
def fmod {m n : ℕ} (f : Fin (m * n)) : Fin n :=
  ⟨f.1 % n, Nat.mod_lt _ (Nat.pos_of_ne_zero (fun h => by
    have hf := f.2
    simp [h] at hf))⟩

/-- Index arithmetic of `flatten(dim, dim+1)` (row-major): rebuild the flat
index from the two factors. -/
def fpair {m n : ℕ} (a : Fin m) (b : Fin n) : Fin (m * n) :=
  ⟨a.1 * n + b.1, by
    have ha := a.2
    have hb := b.2
    calc a.1 * n + b.1 < a.1 * n + n := by omega
    _ = (a.1 + 1) * n := by ring
    _ ≤ m * n := Nat.mul_le_mul_right n ha⟩

/-- The row-major unflatten/flatten bijection between a flat index of size
`m * n` and its (first factor, second factor) pair. -/
def fsplitEquiv {m n : ℕ} : Fin (m * n) ≃ Fin m × Fin n where
  toFun f := (fdiv f, fmod f)
  invFun p := fpair p.1 p.2
  left_inv f := Fin.ext (by
    show f.1 / n * n + f.1 % n = f.1
    exact Nat.div_add_mod' f.1 n)
  right_inv p := by
    have hn : 0 < n := Nat.pos_of_ne_zero fun h => by
      have hb := p.2.2
      simp [h] at hb
    refine Prod.ext (Fin.ext ?_) (Fin.ext ?_)
    · show (p.1.1 * n + p.2.1) / n = p.1.1
      rw [Nat.mul_comm p.1.1 n, Nat.mul_add_div hn, Nat.div_eq_of_lt p.2.2,
        Nat.add_zero]
    · show (p.1.1 * n + p.2.1) % n = p.2.1
      rw [Nat.mul_comm p.1.1 n, Nat.mul_add_mod, Nat.mod_eq_of_lt p.2.2]

/-- The `.transpose(1, 2)` applied to fetched key/value blocks in `flat_pa`,
bringing heads in front of the in-block token position. -/
def transp12 {nb blk kvh hd : ℕ}
    (x : Fin nb → Fin blk → Fin kvh → Fin hd → ℚ) :
    Fin nb → Fin kvh → Fin blk → Fin hd → ℚ :=
  fun i h j d => x i j h d

/-- Modelled from the spec: `VLLMKVCache.fetch_from_cache` (the
`keys_fetch_func` / `values_fetch_func` arguments of `flat_pa`, whose
implementation is not under `src/`) "gathers and returns the blocks named in
`block_list`, concatenated in list order". -/
def fetchGather {pool blk kvh hd nb : ℕ}
    (cache : Fin pool → Fin blk → Fin kvh → Fin hd → ℚ)
    (block_list : Fin nb → Fin pool) :
    Fin nb → Fin blk → Fin kvh → Fin hd → ℚ :=
  fun i j h d => cache (block_list i) j h d

/-- The query projection of `flat_pa`:
`batch2block(scale * query, block_mapping)`. -/
def scaledQuery {bs nb qh hd : ℕ} (block_mapping : Fin nb → Fin bs → ℚ)
    (scale : ℚ) (query : Fin bs → Fin qh → Fin hd → ℚ) :
    Fin nb → Fin qh → Fin hd → ℚ :=
  batch2block block_mapping (fun b => fun h d => scale * query b h d)

/-- Per-block scores of `flat_pa` on the equal-head-count branch
(`kv_heads == q_heads`): `matmul_qk_op(query, key) + block_bias` with
`key.transpose(2, 3)` folded into the contraction. -/
def plainAttn {nb blk kvh g hd : ℕ} (hq : kvh * g = kvh)
    (q : Fin nb → Fin (kvh * g) → Fin hd → ℚ)
    (kT : Fin nb → Fin kvh → Fin blk → Fin hd → ℚ)
    (bias : Fin nb → Fin blk → WithBot ℚ) :
    Fin nb → Fin (kvh * g) → Fin blk → WithBot ℚ :=
  fun i a j =>
    ((∑ d, q i a d * kT i (Fin.cast hq a) j d : ℚ) : WithBot ℚ) + bias i j

/-- Per-block scores of `flat_pa` on the grouped-query branch
(`kv_heads != q_heads`): the query head axis is unflattened into
(kv head, group), the key gets a broadcast singleton group axis, and the bias
broadcasts over both head axes. -/
def groupedAttn {nb blk kvh g hd : ℕ}
    (q : Fin nb → Fin (kvh * g) → Fin hd → ℚ)
    (kT : Fin nb → Fin kvh → Fin blk → Fin hd → ℚ)
    (bias : Fin nb → Fin blk → WithBot ℚ) :
    Fin nb → Fin kvh × Fin g → Fin blk → WithBot ℚ :=
  fun i p j =>
    ((∑ d, q i (fpair p.1 p.2) d * kT i p.1 j d : ℚ) : WithBot ℚ) + bias i j

/-- The `matmul_av_op(attn, value)` step shared by both branches of
`flat_pa`: contract the normalized weights with the fetched value rows;
`hmap` selects the kv head serving a given (possibly grouped) head index. -/
def attnAV {nb blk kvh hd : ℕ} {R : Type} [Fintype R]
    (sm : Fin nb → R → Fin blk → ℚ)
    (vT : Fin nb → Fin kvh → Fin blk → Fin hd → ℚ)
    (hmap : R → Fin kvh) : Fin nb → R → Fin hd → ℚ :=
  fun i r d => ∑ j, sm i r j * vT i (hmap r) j d

/-- Embedding of `flat_pa` from `vllm/hpu/ops.py` (decode attention).  The
query head count is `kvh * g` (`g` the group size); the source dispatches on
`kv_heads != q_heads`, here the condition `kvh * g = kvh`.  `matmul_qk_op`
and `matmul_av_op` are the plain matmul wrappers of the callers and are
inlined; the fetch functions stay parameters as in the source. -/
def flat_pa (E : WithBot ℚ → ℚ) {bs nb blk hd pool kvh g : ℕ}
    (query : Fin bs → Fin (kvh * g) → Fin hd → ℚ)
    (key_cache value_cache : Fin pool → Fin blk → Fin kvh → Fin hd → ℚ)
    (block_list : Fin nb → Fin pool)
    (block_mapping : Fin nb → Fin bs → ℚ)
    (block_bias : Fin nb → Fin blk → WithBot ℚ)
    (scale : ℚ)
    (keysFetch valuesFetch :
      (Fin pool → Fin blk → Fin kvh → Fin hd → ℚ) → (Fin nb → Fin pool) →
        Fin nb → Fin blk → Fin kvh → Fin hd → ℚ) :
    Fin bs → Fin (kvh * g) → Fin hd → ℚ :=
  let q := scaledQuery block_mapping scale query
  let kT := transp12 (keysFetch key_cache block_list)
  let vT := transp12 (valuesFetch value_cache block_list)
  if hq : kvh * g = kvh then
    fun b f d =>
      block2batch block_mapping
        (attnAV (block_softmax E block_mapping (plainAttn hq q kT block_bias))
          vT (fun a => Fin.cast hq a)) b f d
  else
    fun b f d =>
      block2batch block_mapping
        (attnAV (block_softmax E block_mapping (groupedAttn q kT block_bias))
          vT Prod.fst) b (fdiv f, fmod f) d

/-- The global maximum of the score tensor built inside `flat_pa` (the value
`block_softmax` subtracts).  Sequence-to-sequence interference can flow only
through this scalar. -/
def flatPaScoresMax {bs nb blk hd pool kvh g : ℕ}
    (query : Fin bs → Fin (kvh * g) → Fin hd → ℚ)
    (key_cache : Fin pool → Fin blk → Fin kvh → Fin hd → ℚ)
    (block_list : Fin nb → Fin pool)
    (block_mapping : Fin nb → Fin bs → ℚ)
    (block_bias : Fin nb → Fin blk → WithBot ℚ)
    (scale : ℚ)
    (keysFetch :
      (Fin pool → Fin blk → Fin kvh → Fin hd → ℚ) → (Fin nb → Fin pool) →
        Fin nb → Fin blk → Fin kvh → Fin hd → ℚ) : WithBot ℚ :=
  let q := scaledQuery block_mapping scale query
  let kT := transp12 (keysFetch key_cache block_list)
  if hq : kvh * g = kvh then gmax (plainAttn hq q kT block_bias)
  else gmax (groupedAttn q kT block_bias)

/-- The value semantics of `softmax_op(attn_weights, dim=-1)` in
`prompt_attention` (`torch.softmax` over the key axis), with the exponential
abstracted as `E`. -/
def rowSoftmax (E : WithBot ℚ → ℚ) {K : Type} [Fintype K]
    (w : K → WithBot ℚ) : K → ℚ :=
  fun j => E (w j) / ∑ j', E (w j')

/-- Scores of `prompt_attention` on the equal-head-count branch:
`matmul_qk_op(query * scale, key.transpose(-1, -2))`, plus the bias when one
is supplied (`attn_weights.add_(attn_bias)`).  Tensors are indexed in the
post-`transpose(1, 2)` layout (batch, head, position, head_size); the bias is
taken in its head-broadcast layout (batch, 1, q_len, kv_len). -/
def ppPlainScores {b sq sk kvh g hd : ℕ} (hq : kvh * g = kvh) (scale : ℚ)
    (query : Fin b → Fin sq → Fin (kvh * g) → Fin hd → ℚ)
    (key : Fin b → Fin sk → Fin kvh → Fin hd → ℚ)
    (bias : Option (Fin b → Fin sq → Fin sk → WithBot ℚ)) :
    Fin b → Fin (kvh * g) → Fin sq → Fin sk → WithBot ℚ :=
  fun i a t j =>
    match bias with
    | none =>
        ((∑ d, query i t a d * scale * key i j (Fin.cast hq a) d : ℚ) : WithBot ℚ)
    | some B =>
        ((∑ d, query i t a d * scale * key i j (Fin.cast hq a) d : ℚ) : WithBot ℚ)
          + B i t j

/-- Scores of `prompt_attention` on the grouped-query branch
(`query_heads != kv_heads`): query heads unflattened into (kv head, group),
key and value given a broadcast singleton group axis, bias unsqueezed at the
group axis. -/
def ppGroupedScores {b sq sk kvh g hd : ℕ} (scale : ℚ)
    (query : Fin b → Fin sq → Fin (kvh * g) → Fin hd → ℚ)
    (key : Fin b → Fin sk → Fin kvh → Fin hd → ℚ)
    (bias : Option (Fin b → Fin sq → Fin sk → WithBot ℚ)) :
    Fin b → Fin kvh × Fin g → Fin sq → Fin sk → WithBot ℚ :=
  fun i p t j =>
    match bias with
    | none =>
        ((∑ d, query i t (fpair p.1 p.2) d * scale * key i j p.1 d : ℚ) : WithBot ℚ)
    | some B =>
        ((∑ d, query i t (fpair p.1 p.2) d * scale * key i j p.1 d : ℚ) : WithBot ℚ)
          + B i t j

/-- The reference (two-matmul-plus-softmax) path of `prompt_attention`: the
branch taken whenever a bias is supplied or the fused kernel is unavailable.
Output is in the caller layout (batch, q position, head, head_size); the
final `flatten(1, 2)` of the grouped branch is the (fdiv, fmod) index
pairing. -/
def promptAttentionNaive (E : WithBot ℚ → ℚ) {b sq sk kvh g hd : ℕ}
    (query : Fin b → Fin sq → Fin (kvh * g) → Fin hd → ℚ)
    (key value : Fin b → Fin sk → Fin kvh → Fin hd → ℚ)
    (attn_bias : Option (Fin b → Fin sq → Fin sk → WithBot ℚ))
    (scale : ℚ) : Fin b → Fin sq → Fin (kvh * g) → Fin hd → ℚ :=
  if hq : kvh * g = kvh then
    fun i t f d =>
      ∑ j, rowSoftmax E (ppPlainScores hq scale query key attn_bias i f t) j
        * value i j (Fin.cast hq f) d
  else
    fun i t f d =>
      ∑ j, rowSoftmax E
          (ppGroupedScores scale query key attn_bias i (fdiv f, fmod f) t) j
        * value i j (fdiv f) d

/-- Embedding of `prompt_attention` from `vllm/hpu/ops.py` (prefill
attention).  The source dispatches on
`attn_bias is not None or HPUFusedSDPA is None`; `hasFSDPA` models the
import-time availability of the fused kernel and `fsdpaOp` models the
external `FusedSDPA.apply` kernel (not part of this repository). -/
def prompt_attention (E : WithBot ℚ → ℚ) (hasFSDPA : Bool)
    {b sq sk kvh g hd : ℕ}
    (fsdpaOp :
      (Fin b → Fin sq → Fin (kvh * g) → Fin hd → ℚ) →
      (Fin b → Fin sk → Fin kvh → Fin hd → ℚ) →
      (Fin b → Fin sk → Fin kvh → Fin hd → ℚ) → ℚ → Option (Fin b → ℕ) →
      (Fin b → Fin sq → Fin (kvh * g) → Fin hd → ℚ))
    (query : Fin b → Fin sq → Fin (kvh * g) → Fin hd → ℚ)
    (key value : Fin b → Fin sk → Fin kvh → Fin hd → ℚ)
    (attn_bias : Option (Fin b → Fin sq → Fin sk → WithBot ℚ))
    (scale : ℚ) (valid_seq_lengths : Option (Fin b → ℕ)) :
    Fin b → Fin sq → Fin (kvh * g) → Fin hd → ℚ :=
  if attn_bias.isSome || !hasFSDPA then
    promptAttentionNaive E query key value attn_bias scale
  else
    fsdpaOp query key value scale valid_seq_lengths

/-- The `attn_type` strings of `vllm.attention.backends.abstract`, as the
closed enum the design notes ask for. -/
inductive AttnType
  | decoder
  | encoder
  | encoderDecoder
  | encoderOnly
  deriving DecidableEq

/-- The construction-time failures of the two attention implementations:
`assert` failures, `NotImplementedError`, and Python's `ZeroDivisionError`
(raised by `%` when the kv head count is zero). -/
inductive InitError
  | assertionError
  | notImplementedError
  | zeroDivisionError
  deriving DecidableEq

/-- Python truthiness of an optional list (`None` and `[]` are falsy). -/
def truthyList {α : Type} (x : Option (List α)) : Bool :=
  match x with
  | none => false
  | some l => !l.isEmpty

/-- Python truthiness of an optional integer (`None` and `0` are falsy). -/
def truthyInt (x : Option Int) : Bool :=
  match x with
  | none => false
  | some n => n != 0

/-- Python truthiness of an optional rational (`None` and `0.0` are falsy). -/
def truthyRat (x : Option ℚ) : Bool :=
  match x with
  | none => false
  | some q => q != 0

/-- The constructor arguments of `HPUMLAImpl.__init__` that its own checks
inspect.  `blocksparse_params` (a Python dict) is modelled as an optional
association list; `fsdpa_enabled` models `"fsdpa" in enabled_flags()`. -/
structure MLAArgs where
  alibi_slopes : Option (List ℚ)
  sliding_window : Option Int
  blocksparse_params : Option (List (Nat × ℚ))
  logits_soft_cap : Option ℚ
  attn_type : AttnType
  fsdpa_enabled : Bool
  deriving DecidableEq

/-- Embedding of the checks of `HPUMLAImpl.__init__`
(`vllm/attention/backends/hpu_attn.py`), in source order: the fsdpa-flag
assertion that `alibi_slopes is None`; the
`any([alibi_slopes, sliding_window, blocksparse_params, logits_soft_cap])`
NotImplementedError (Python truthiness); the decoder-only attention-type
check. -/
def hpuMLAImplInit (a : MLAArgs) : Except InitError Unit :=
  if a.fsdpa_enabled = true ∧ a.alibi_slopes ≠ none then
    .error .assertionError
  else if truthyList a.alibi_slopes || truthyInt a.sliding_window
      || truthyList a.blocksparse_params || truthyRat a.logits_soft_cap then
    .error .notImplementedError
  else if a.attn_type = AttnType.decoder then
    .ok ()
  else
    .error .notImplementedError

/-- The head bookkeeping `HPUAttentionImpl.__init__` derives under its
divisibility assertion. -/
structure AttnImplState where
  num_kv_heads : Nat
  num_queries_per_kv : Nat
  deriving DecidableEq

/-- Embedding of the checks of `HPUAttentionImpl.__init__`
(`vllm/attention/backends/hpu_attn.py`), in source order: the fsdpa-flag
assertion on alibi slopes; `num_kv_heads = num_heads if num_kv_heads is None
else num_kv_heads`; `assert num_heads % num_kv_heads == 0` (with
`ZeroDivisionError` when the kv head count is zero);
`num_queries_per_kv = num_heads // num_kv_heads`; the attention-type
check. -/
def hpuAttentionImplInit (num_heads : Nat) (num_kv_heads : Option Nat)
    (alibi_slopes : Option (List ℚ)) (fsdpa_enabled : Bool)
    (attn_type : AttnType) : Except InitError AttnImplState :=
  if fsdpa_enabled = true ∧ alibi_slopes ≠ none then
    .error .assertionError
  else if num_kv_heads.getD num_heads = 0 then .error .zeroDivisionError
  else if num_heads % num_kv_heads.getD num_heads = 0 then
    if attn_type = AttnType.decoder ∨ attn_type = AttnType.encoderDecoder
        ∨ attn_type = AttnType.encoderOnly then
      .ok ⟨num_kv_heads.getD num_heads,
        num_heads / num_kv_heads.getD num_heads⟩
    else .error .notImplementedError
  else .error .assertionError

/-- Whether an `Except` result is a success. -/
def exceptIsOk {ε α : Type} (x : Except ε α) : Bool :=
  match x with
  | .ok _ => true
  | .error _ => false

/-- The exponential-like properties a numeric kernel for `torch.exp` has on
the masked domain: `exp (-inf) = 0`, `exp 0 = 1`, monotonicity, and strict
positivity on finite inputs. -/
def ExpLike (E : WithBot ℚ → ℚ) : Prop :=
  E ⊥ = 0 ∧ E ((0 : ℚ) : WithBot ℚ) = 1 ∧ Monotone E
    ∧ ∀ q : ℚ, 0 < E ((q : ℚ) : WithBot ℚ)

/-- A concrete computable exponential-like kernel: `0` at `-inf`, `1/2` on
negative finite inputs, `1` on nonnegative ones. -/
def Estep : WithBot ℚ → ℚ :=
  WithBot.recBotCoe 0 (fun q => if q < 0 then 1/2 else 1)

/-! Concrete fixtures for the two-sequence decode scenario: two blocks, one
per sequence, block size 1, one head, head size 1.  `kcA` and `kcB` agree on
block 0 (owned by sequence 0) and differ only in block 1's key row (owned by
sequence 1). -/

/-- Two-sequence fixture: key cache A (all keys zero). -/
def kcA : Fin 2 → Fin 1 → Fin 1 → Fin 1 → ℚ := fun _ _ _ _ => 0

/-- Two-sequence fixture: key cache B (block 1's key row changed to 5). -/
def kcB : Fin 2 → Fin 1 → Fin 1 → Fin 1 → ℚ :=
  fun p _ _ _ => if p = 0 then 0 else 5

/-- Two-sequence fixture: value cache (all values one). -/
def vc2 : Fin 2 → Fin 1 → Fin 1 → Fin 1 → ℚ := fun _ _ _ _ => 1

/-- Two-sequence fixture: decode queries (both one). -/
def q2 : Fin 2 → Fin (1 * 1) → Fin 1 → ℚ := fun _ _ _ => 1

/-- Two-sequence fixture: block list (block i in pool slot i). -/
def bl2 : Fin 2 → Fin 2 := fun i => i

/-- Two-sequence fixture: one-hot block mapping, block i owned by batch
element i. -/
def M2 : Fin 2 → Fin 2 → ℚ := fun i j => if j = i then 1 else 0

/-- Two-sequence fixture: no masking. -/
def bias2 : Fin 2 → Fin 1 → WithBot ℚ := fun _ _ => ((0 : ℚ) : WithBot ℚ)

/-! ### Helper lemmas -/

theorem batch2block_applyV {nb bs : ℕ} {R V : Type} [AddCommMonoid V]
    [Module ℚ V] (M : Fin nb → Fin bs → ℚ) (x : Fin bs → R → V) (i : Fin nb)
    (r : R) : batch2block M x i r = batch2block M (fun j => x j r) i := by
  unfold batch2block
  rw [Finset.sum_apply]
  simp only [Pi.smul_apply]

theorem block2batch_applyV {nb bs : ℕ} {R V : Type} [AddCommMonoid V]
    [Module ℚ V] (M : Fin nb → Fin bs → ℚ) (x : Fin nb → R → V) (j : Fin bs)
    (r : R) : block2batch M x j r = block2batch M (fun i => x i r) j := by
  unfold block2batch
  rw [Finset.sum_apply]
  simp only [Pi.smul_apply]

theorem Estep_bot : Estep ⊥ = 0 := rfl

theorem Estep_coe (q : ℚ) : Estep ((q : ℚ) : WithBot ℚ) = if q < 0 then 1/2 else 1 := rfl

theorem Estep_one : Estep 1 = 1 := by
  rw [show (1 : WithBot ℚ) = ((1 : ℚ) : WithBot ℚ) from rfl, Estep_coe]
  norm_num

theorem batch2block_onehot {nb bs : ℕ} {V : Type} [AddCommMonoid V]
    [Module ℚ V] {M : Fin nb → Fin bs → ℚ} {ow : Fin nb → Fin bs}
    (hM : IsOneHot M ow) (x : Fin bs → V) (i : Fin nb) :
    batch2block M x i = x (ow i) := by
  unfold batch2block
  have h : ∀ j, M i j • x j = if j = ow i then x j else 0 := by
    intro j
    rw [hM i j]
    split <;> simp
  rw [Finset.sum_congr rfl fun j _ => h j, Finset.sum_ite_eq' Finset.univ (ow i) x]
  simp

theorem block2batch_onehot {nb bs : ℕ} {V : Type} [AddCommMonoid V]
    [Module ℚ V] {M : Fin nb → Fin bs → ℚ} {ow : Fin nb → Fin bs}
    (hM : IsOneHot M ow) (x : Fin nb → V) (j : Fin bs) :
    block2batch M x j = ∑ i ∈ Finset.univ.filter (fun i => ow i = j), x i := by
  unfold block2batch
  have h : ∀ i, M i j • x i = if ow i = j then x i else 0 := by
    intro i
    rw [hM i j]
    by_cases hij : ow i = j
    · simp [hij]
    · have hji : ¬ j = ow i := fun h => hij h.symm
      simp [hij, hji]
  rw [Finset.sum_congr rfl fun i _ => h i]
  exact (Finset.sum_filter _ _).symm

/-! ### C2: the batch2block / block2batch round trip -/

/-- C2 fails as stated: with two blocks both owned by the single batch
element (a perfectly legal one-nonzero-per-block-row mapping), the round
trip doubles the batch row instead of recovering it. -/
theorem C2_counterexample :
    IsOneHot (fun (_ : Fin 2) (_ : Fin 1) => (1 : ℚ)) (fun _ => 0)
    ∧ block2batch (fun (_ : Fin 2) (_ : Fin 1) => (1 : ℚ))
        (batch2block (fun (_ : Fin 2) (_ : Fin 1) => (1 : ℚ))
          (fun (_ : Fin 1) => (1 : ℚ))) 0
      ≠ (fun (_ : Fin 1) => (1 : ℚ)) 0 := by
  constructor
  · decide
  · simp [block2batch, batch2block, smul_eq_mul, Fin.sum_univ_two,
      Fin.sum_univ_one]

/-- C2 (amended): for a {0,1}-valued mapping with exactly one nonzero per
block row, `block2batch (batch2block x M) M` scales each batch row by the
number of blocks that batch element owns; it recovers `x` exactly when every
batch element owns exactly one block. -/
theorem C2_roundtrip_counts {nb bs : ℕ} {V : Type} [AddCommMonoid V]
    [Module ℚ V] {M : Fin nb → Fin bs → ℚ} {ow : Fin nb → Fin bs}
    (hM : IsOneHot M ow) (x : Fin bs → V) (j : Fin bs) :
    block2batch M (batch2block M x) j
      = ((Finset.univ.filter (fun i => ow i = j)).card : ℚ) • x j := by
  rw [block2batch_onehot hM]
  have h : ∀ i ∈ Finset.univ.filter (fun i => ow i = j),
      batch2block M x i = x j := by
    intro i hi
    rw [batch2block_onehot hM, (Finset.mem_filter.mp hi).2]
  rw [Finset.sum_congr rfl h, Finset.sum_const, Nat.cast_smul_eq_nsmul]

/-- Witness for C2_roundtrip_counts: a one-block, one-batch-element mapping,
where the count is one and the row is recovered. -/
theorem C2_witness :
    IsOneHot (fun (_ : Fin 1) (_ : Fin 1) => (1 : ℚ)) (fun _ => 0)
    ∧ block2batch (fun (_ : Fin 1) (_ : Fin 1) => (1 : ℚ))
        (batch2block (fun (_ : Fin 1) (_ : Fin 1) => (1 : ℚ))
          (fun (_ : Fin 1) => (5 : ℚ))) 0
      = ((Finset.univ.filter
            (fun i : Fin 1 => (fun _ : Fin 1 => (0 : Fin 1)) i = 0)).card : ℚ)
          • (fun (_ : Fin 1) => (5 : ℚ)) 0 :=
  ⟨by decide, C2_roundtrip_counts (by decide) (fun _ => (5 : ℚ)) 0⟩

/-! ### C9: flat_pa performs no block-list validation -/

/-- C9 fails as stated: `flat_pa` raises nothing when a batch element has no
active block (here batch element 1 owns no row of the mapping); it returns a
defined, all-zero output row for it. -/
theorem C9_counterexample :
    (∀ i : Fin 1, (fun (_ : Fin 1) => ![(1 : ℚ), 0]) i 1 = 0)
    ∧ flat_pa Estep (fun (_ : Fin 2) (_ : Fin (1 * 1)) (_ : Fin 1) => (1 : ℚ))
        (fun (_ : Fin 1) (_ : Fin 1) (_ : Fin 1) (_ : Fin 1) => (1 : ℚ))
        (fun (_ : Fin 1) (_ : Fin 1) (_ : Fin 1) (_ : Fin 1) => (1 : ℚ))
        (fun (_ : Fin 1) => (0 : Fin 1)) (fun (_ : Fin 1) => ![(1 : ℚ), 0])
        (fun _ _ => ((0 : ℚ) : WithBot ℚ)) 1 fetchGather fetchGather 1 0 0
      = 0 := by
  constructor
  · decide
  · simp only [flat_pa]
    split <;>
      simp [block2batch, Finset.sum_apply, Pi.smul_apply, Fin.sum_univ_one]

/-- C9 (amended): `flat_pa` contains no validation at all.  A batch element
whose mapping column is zero (it owns no block) produces an all-zero output
row, with no error; agreement between `block_mapping`'s block count and
`block_list`'s length is a shape precondition of the call (enforced by the
tensor types here, by the underlying matmul kernel in the source), not a
named check. -/
theorem C9_empty_block_list_zero_row (E : WithBot ℚ → ℚ)
    {bs nb blk hd pool kvh g : ℕ}
    (query : Fin bs → Fin (kvh * g) → Fin hd → ℚ)
    (key_cache value_cache : Fin pool → Fin blk → Fin kvh → Fin hd → ℚ)
    (block_list : Fin nb → Fin pool) (M : Fin nb → Fin bs → ℚ)
    (block_bias : Fin nb → Fin blk → WithBot ℚ) (scale : ℚ)
    (keysFetch valuesFetch :
      (Fin pool → Fin blk → Fin kvh → Fin hd → ℚ) → (Fin nb → Fin pool) →
        Fin nb → Fin blk → Fin kvh → Fin hd → ℚ)
    (j : Fin bs) (hcol : ∀ i, M i j = 0) (f : Fin (kvh * g)) (d : Fin hd) :
    flat_pa E query key_cache value_cache block_list M block_bias scale
      keysFetch valuesFetch j f d = 0 := by
  simp only [flat_pa]
  split
  · simp [block2batch, Finset.sum_apply, Pi.smul_apply, hcol]
  · simp [block2batch, Finset.sum_apply, Pi.smul_apply, hcol]

/-- Witness for C9_empty_block_list_zero_row at a concrete input. -/
theorem C9_witness :
    (∀ i : Fin 1, (fun (_ : Fin 1) => ![(1 : ℚ), 0]) i 1 = 0)
    ∧ flat_pa Estep (fun (_ : Fin 2) (_ : Fin (1 * 1)) (_ : Fin 1) => (2 : ℚ))
        (fun (_ : Fin 1) (_ : Fin 1) (_ : Fin 1) (_ : Fin 1) => (3 : ℚ))
        (fun (_ : Fin 1) (_ : Fin 1) (_ : Fin 1) (_ : Fin 1) => (4 : ℚ))
        (fun (_ : Fin 1) => (0 : Fin 1)) (fun (_ : Fin 1) => ![(1 : ℚ), 0])
        (fun _ _ => ((0 : ℚ) : WithBot ℚ)) 1 fetchGather fetchGather 1 0 0
      = 0 :=
  ⟨by decide,
    C9_empty_block_list_zero_row Estep
      (fun (_ : Fin 2) (_ : Fin (1 * 1)) (_ : Fin 1) => (2 : ℚ))
      (fun (_ : Fin 1) (_ : Fin 1) (_ : Fin 1) (_ : Fin 1) => (3 : ℚ))
      (fun (_ : Fin 1) (_ : Fin 1) (_ : Fin 1) (_ : Fin 1) => (4 : ℚ))
      (fun (_ : Fin 1) => (0 : Fin 1)) (fun (_ : Fin 1) => ![(1 : ℚ), 0])
      (fun _ _ => ((0 : ℚ) : WithBot ℚ)) 1 fetchGather fetchGather 1
      (by decide) 0 0⟩

/-! ### C10: the grouped-query divisibility precondition -/

/-- C10: `HPUAttentionImpl.__init__` fails whenever the number of query
heads is not an integer multiple of the (resolved) number of kv heads, and
on every successful construction `num_queries_per_kv` is the exact quotient,
so `num_queries_per_kv * num_kv_heads = num_heads` and every grouped-query
unflatten of the forward paths recombines exactly. -/
theorem C10_head_divisibility (num_heads : Nat) (num_kv_heads : Option Nat)
    (alibi_slopes : Option (List ℚ)) (fsdpa_enabled : Bool)
    (attn_type : AttnType) :
    (¬ (num_kv_heads.getD num_heads ∣ num_heads) →
      exceptIsOk (hpuAttentionImplInit num_heads num_kv_heads alibi_slopes
        fsdpa_enabled attn_type) = false)
    ∧ ∀ st, hpuAttentionImplInit num_heads num_kv_heads alibi_slopes
        fsdpa_enabled attn_type = .ok st →
        st.num_kv_heads = num_kv_heads.getD num_heads
        ∧ st.num_queries_per_kv = num_heads / st.num_kv_heads
        ∧ st.num_queries_per_kv * st.num_kv_heads = num_heads := by
  constructor
  · intro hdvd
    unfold hpuAttentionImplInit
    split_ifs with h1 h2 h3 h4
    · rfl
    · rfl
    · exact absurd (Nat.dvd_of_mod_eq_zero h3) hdvd
    · rfl
    · rfl
  · intro st hst
    unfold hpuAttentionImplInit at hst
    split_ifs at hst with h1 h2 h3 h4
    rw [Except.ok.injEq] at hst
    subst hst
    exact ⟨rfl, rfl, Nat.div_mul_cancel (Nat.dvd_of_mod_eq_zero h3)⟩

/-- Witness for C10_head_divisibility: 8 query heads with 3 kv heads are
rejected; 8 query heads with 2 kv heads construct with 4 queries per kv
head. -/
theorem C10_witness :
    (¬ ((3 : Nat) ∣ 8)
      ∧ exceptIsOk
          (hpuAttentionImplInit 8 (some 3) none false AttnType.decoder)
          = false)
    ∧ ((AttnImplState.mk 2 4).num_kv_heads = (some 2 : Option Nat).getD 8
        ∧ (AttnImplState.mk 2 4).num_queries_per_kv
            = 8 / (AttnImplState.mk 2 4).num_kv_heads
        ∧ (AttnImplState.mk 2 4).num_queries_per_kv
            * (AttnImplState.mk 2 4).num_kv_heads = 8) :=
  ⟨⟨by decide,
    (C10_head_divisibility 8 (some 3) none false AttnType.decoder).1
      (by decide)⟩,
   (C10_head_divisibility 8 (some 2) none false AttnType.decoder).2
      ⟨2, 4⟩ rfl⟩

/-! ### C8: construction-time rejection in the latent (MLA) path -/

/-- C8 fails as stated in its success half: with none of alibi slopes,
sliding window, or block-sparse parameters supplied, construction still
fails when a logits soft cap is supplied (the source rejects
`logits_soft_cap` in the same `any([...])` check). -/
theorem C8_counterexample :
    truthyList (none : Option (List ℚ)) = false
    ∧ truthyInt (none : Option Int) = false
    ∧ truthyList (none : Option (List (Nat × ℚ))) = false
    ∧ hpuMLAImplInit ⟨none, none, none, some 30, AttnType.decoder, false⟩
        = .error .notImplementedError :=
  ⟨rfl, rfl, rfl, rfl⟩

/-- C8 (amended): supplying any of alibi slopes, sliding window, or
block-sparse parameters (as truthy values) makes `HPUMLAImpl.__init__` fail;
and construction succeeds exactly when none of those, and additionally no
logits soft cap, is truthy, the attention type is decoder, and the
fsdpa-flag assertion on alibi slopes does not fire. -/
theorem C8_mla_unsupported_features (a : MLAArgs) :
    ((truthyList a.alibi_slopes || truthyInt a.sliding_window
        || truthyList a.blocksparse_params) = true →
      exceptIsOk (hpuMLAImplInit a) = false)
    ∧ (hpuMLAImplInit a = .ok () ↔
        ¬(a.fsdpa_enabled = true ∧ a.alibi_slopes ≠ none)
        ∧ truthyList a.alibi_slopes = false
        ∧ truthyInt a.sliding_window = false
        ∧ truthyList a.blocksparse_params = false
        ∧ truthyRat a.logits_soft_cap = false
        ∧ a.attn_type = AttnType.decoder) := by
  constructor
  · intro htr
    unfold hpuMLAImplInit
    split_ifs with h1 h2 h3
    · rfl
    · rfl
    · simp only [Bool.or_eq_true] at htr h2
      tauto
    · rfl
  · constructor
    · intro hok
      unfold hpuMLAImplInit at hok
      split_ifs at hok with h1 h2 h3
      simp only [Bool.or_eq_true, not_or, Bool.not_eq_true] at h2
      exact ⟨h1, h2.1.1.1, h2.1.1.2, h2.1.2, h2.2, h3⟩
    · rintro ⟨h1, h2a, h2b, h2c, h2d, h3⟩
      unfold hpuMLAImplInit
      rw [if_neg h1, if_neg (by simp [h2a, h2b, h2c, h2d]), if_pos h3]

/-- Witness for C8_mla_unsupported_features: truthy alibi slopes are
rejected; the all-off configuration constructs. -/
theorem C8_witness :
    exceptIsOk
        (hpuMLAImplInit ⟨some [1], none, none, none, AttnType.decoder, false⟩)
        = false
    ∧ hpuMLAImplInit ⟨none, none, none, none, AttnType.decoder, false⟩
        = .ok () :=
  ⟨(C8_mla_unsupported_features
      ⟨some [1], none, none, none, AttnType.decoder, false⟩).1 (by decide),
   (C8_mla_unsupported_features
      ⟨none, none, none, none, AttnType.decoder, false⟩).2.mpr
      (by refine ⟨by simp, rfl, rfl, rfl, rfl, rfl⟩)⟩

/-! ### C7: prompt_attention with a bias never fails, it takes the
reference path -/

/-- C7 fails as stated: at a concrete input with a bias supplied and the
fused kernel available, `prompt_attention` raises nothing and does not use
the fused kernel (which here would return 0); it computes the reference
two-matmul softmax result, 1. -/
theorem C7_counterexample :
    prompt_attention Estep true
        (fun _ _ _ _ _ =>
          fun (_ : Fin 1) (_ : Fin 1) (_ : Fin (1 * 1)) (_ : Fin 1) => (0 : ℚ))
        (fun (_ : Fin 1) (_ : Fin 1) (_ : Fin (1 * 1)) (_ : Fin 1) => (1 : ℚ))
        (fun (_ : Fin 1) (_ : Fin 1) (_ : Fin 1) (_ : Fin 1) => (1 : ℚ))
        (fun (_ : Fin 1) (_ : Fin 1) (_ : Fin 1) (_ : Fin 1) => (1 : ℚ))
        (some (fun _ _ _ => ((0 : ℚ) : WithBot ℚ))) 1 none 0 0 0 0 = 1 := by
  simp only [prompt_attention, Option.isSome_some, Bool.true_or, if_true]
  unfold promptAttentionNaive
  rw [dif_pos (show (1 * 1 : ℕ) = 1 from rfl)]
  simp only [rowSoftmax, ppPlainScores, Fin.sum_univ_one, ← WithBot.coe_add]
  norm_num [Estep_coe, Estep_one]

/-- C7 (amended): whenever a bias is supplied, `prompt_attention` proceeds
on the reference two-matmul-plus-softmax path, regardless of fused-kernel
availability; it raises no error (the source has no raise statement on any
path). -/
theorem C7_bias_forces_reference_path (E : WithBot ℚ → ℚ)
    (hasFSDPA : Bool) {b sq sk kvh g hd : ℕ}
    (fsdpaOp :
      (Fin b → Fin sq → Fin (kvh * g) → Fin hd → ℚ) →
      (Fin b → Fin sk → Fin kvh → Fin hd → ℚ) →
      (Fin b → Fin sk → Fin kvh → Fin hd → ℚ) → ℚ → Option (Fin b → ℕ) →
      (Fin b → Fin sq → Fin (kvh * g) → Fin hd → ℚ))
    (query : Fin b → Fin sq → Fin (kvh * g) → Fin hd → ℚ)
    (key value : Fin b → Fin sk → Fin kvh → Fin hd → ℚ)
    (B : Fin b → Fin sq → Fin sk → WithBot ℚ) (scale : ℚ)
    (valid_seq_lengths : Option (Fin b → ℕ)) :
    prompt_attention E hasFSDPA fsdpaOp query key value (some B) scale
        valid_seq_lengths
      = promptAttentionNaive E query key value (some B) scale := by
  simp [prompt_attention]

/-! ### C1: the block-sharded softmax denominator -/

/-- C1: for any score tensor and any {0,1}-valued mapping with exactly one
nonzero per block row, `block_softmax` divides each exponentiated max-shifted
score by the sum of the exponentiated max-shifted scores over all blocks
belonging to that block's batch element, plus the 1.0e-12 guard: the
block2batch-then-batch2block composition on the per-block sums produces the
correct per-batch-element softmax denominator. -/
theorem C1_block_softmax_denominator (E : WithBot ℚ → ℚ) {nb bs : ℕ}
    {R K : Type} [Fintype R] [Fintype K] {M : Fin nb → Fin bs → ℚ}
    {ow : Fin nb → Fin bs} (hM : IsOneHot M ow)
    (attn : Fin nb → R → K → WithBot ℚ) (i : Fin nb) (r : R) (k : K) :
    block_softmax E M attn i r k
      = E (subMax (attn i r k) (gmax attn))
        / ((∑ i' ∈ Finset.univ.filter (fun i' => ow i' = ow i),
              ∑ k', E (subMax (attn i' r k') (gmax attn))) + (1e-12 : ℚ)) := by
  unfold block_softmax bsDenom
  rw [batch2block_onehot hM, block2batch_onehot hM, Finset.sum_apply]
  rfl

/-- Witness for C1_block_softmax_denominator at a concrete two-block,
one-batch-element input. -/
theorem C1_witness :
    IsOneHot (fun (_ : Fin 2) (_ : Fin 1) => (1 : ℚ)) (fun _ => 0)
    ∧ block_softmax Estep (fun (_ : Fin 2) (_ : Fin 1) => (1 : ℚ))
        (fun (i : Fin 2) (_ : Fin 1) (_ : Fin 1) =>
          if i = 0 then ((3 : ℚ) : WithBot ℚ) else ((7 : ℚ) : WithBot ℚ))
        0 0 0
      = Estep (subMax
            ((fun (i : Fin 2) (_ : Fin 1) (_ : Fin 1) =>
              if i = 0 then ((3 : ℚ) : WithBot ℚ) else ((7 : ℚ) : WithBot ℚ))
              0 0 0)
            (gmax (fun (i : Fin 2) (_ : Fin 1) (_ : Fin 1) =>
              if i = 0 then ((3 : ℚ) : WithBot ℚ) else ((7 : ℚ) : WithBot ℚ))))
        / ((∑ i' ∈ Finset.univ.filter
              (fun i' : Fin 2 => (fun _ : Fin 2 => (0 : Fin 1)) i' = 0),
            ∑ k' : Fin 1,
              Estep (subMax
                ((fun (i : Fin 2) (_ : Fin 1) (_ : Fin 1) =>
                  if i = 0 then ((3 : ℚ) : WithBot ℚ)
                  else ((7 : ℚ) : WithBot ℚ)) i' 0 k')
                (gmax (fun (i : Fin 2) (_ : Fin 1) (_ : Fin 1) =>
                  if i = 0 then ((3 : ℚ) : WithBot ℚ)
                  else ((7 : ℚ) : WithBot ℚ)))))
            + (1e-12 : ℚ)) :=
  ⟨by decide,
    @C1_block_softmax_denominator Estep 2 1 (Fin 1) (Fin 1) _ _
      (fun _ _ => (1 : ℚ)) (fun _ => 0) (by decide)
      (fun (i : Fin 2) (_ : Fin 1) (_ : Fin 1) =>
        if i = 0 then ((3 : ℚ) : WithBot ℚ) else ((7 : ℚ) : WithBot ℚ))
      0 0 0⟩

/-! ### C4: all-masked rows under the epsilon guard -/

/-- Helper: the concrete kernel Estep is nonnegative everywhere. -/
theorem Estep_nonneg : ∀ x : WithBot ℚ, 0 ≤ Estep x := by
  intro x
  induction x using WithBot.recBotCoe with
  | bot => simp [Estep]
  | coe q =>
      rw [Estep_coe]
      split <;> norm_num

/-- C4: when the bias masks out an entire row of a block (all its scores are
minus infinity) and the global maximum of the score tensor is finite (some
score in the batch is unmasked), the `block_softmax` output of that row is
exactly zero — a defined value, not NaN: the 1.0e-12 added to the folded
per-block sums keeps the denominator strictly positive, and the masked
numerator exponentiates to zero. -/
theorem C4_masked_row_yields_zero (E : WithBot ℚ → ℚ) {nb bs : ℕ}
    {R K : Type} [Fintype R] [Fintype K] {M : Fin nb → Fin bs → ℚ}
    {ow : Fin nb → Fin bs} (hM : IsOneHot M ow)
    (attn : Fin nb → R → K → WithBot ℚ)
    (hE0 : E ⊥ = 0) (hEnn : ∀ x, 0 ≤ E x) (i : Fin nb) (r : R)
    (hmask : ∀ k, attn i r k = ⊥) (hfin : gmax attn ≠ ⊥) (k : K) :
    block_softmax E M attn i r k = 0 ∧ 0 < bsDenom E M attn i r := by
  have hnum : ∀ k', bsExp E attn i r k' = 0 := by
    intro k'
    unfold bsExp
    rw [hmask k']
    rcases hm : gmax attn with _ | mq
    · exact absurd hm hfin
    · exact hE0
  constructor
  · unfold block_softmax
    rw [hnum k, zero_div]
  · unfold bsDenom
    rw [batch2block_onehot hM, block2batch_onehot hM, Finset.sum_apply]
    have hs : 0 ≤ ∑ i' ∈ Finset.univ.filter (fun i' => ow i' = ow i),
        bsSums E attn i' r := by
      refine Finset.sum_nonneg fun i' _ => ?_
      exact Finset.sum_nonneg fun k' _ => hEnn _
    have he : (0 : ℚ) < (1e-12 : ℚ) := by norm_num
    linarith

/-- Witness for C4_masked_row_yields_zero: block 0's row is fully masked,
block 1 carries an unmasked score, so the global maximum is finite. -/
theorem C4_witness :
    IsOneHot (fun (_ : Fin 2) (_ : Fin 1) => (1 : ℚ)) (fun _ => 0)
    ∧ Estep ⊥ = 0
    ∧ (∀ k : Fin 1,
        (fun (i : Fin 2) (_ : Fin 1) (_ : Fin 1) =>
          if i = 0 then (⊥ : WithBot ℚ) else ((2 : ℚ) : WithBot ℚ)) 0 0 k = ⊥)
    ∧ gmax (fun (i : Fin 2) (_ : Fin 1) (_ : Fin 1) =>
        if i = 0 then (⊥ : WithBot ℚ) else ((2 : ℚ) : WithBot ℚ)) ≠ ⊥
    ∧ (block_softmax Estep (fun (_ : Fin 2) (_ : Fin 1) => (1 : ℚ))
          (fun (i : Fin 2) (_ : Fin 1) (_ : Fin 1) =>
            if i = 0 then (⊥ : WithBot ℚ) else ((2 : ℚ) : WithBot ℚ)) 0 0 0
          = 0
        ∧ 0 < bsDenom Estep (fun (_ : Fin 2) (_ : Fin 1) => (1 : ℚ))
            (fun (i : Fin 2) (_ : Fin 1) (_ : Fin 1) =>
              if i = 0 then (⊥ : WithBot ℚ) else ((2 : ℚ) : WithBot ℚ)) 0 0) :=
  ⟨by decide, rfl, by decide, by decide,
    @C4_masked_row_yields_zero Estep 2 1 (Fin 1) (Fin 1) _ _
      (fun _ _ => (1 : ℚ)) (fun _ => 0) (by decide)
      (fun (i : Fin 2) (_ : Fin 1) (_ : Fin 1) =>
        if i = 0 then (⊥ : WithBot ℚ) else ((2 : ℚ) : WithBot ℚ))
      rfl Estep_nonneg 0 0 (by decide) (by decide) 0⟩

/-! ### C3: permutation invariance of decode attention -/

theorem gmax_perm {nb : ℕ} {R K : Type} [Fintype R] [Fintype K]
    (σ : Equiv.Perm (Fin nb)) (attn : Fin nb → R → K → WithBot ℚ) :
    gmax (fun i => attn (σ i)) = gmax attn := by
  unfold gmax
  apply le_antisymm
  · refine Finset.sup_le fun p _ => ?_
    exact Finset.le_sup
      (f := fun p : Fin nb × R × K => attn p.1 p.2.1 p.2.2)
      (Finset.mem_univ (σ p.1, p.2.1, p.2.2))
  · refine Finset.sup_le fun p _ => ?_
    have h := Finset.le_sup
      (f := fun q : Fin nb × R × K => attn (σ q.1) q.2.1 q.2.2)
      (Finset.mem_univ (σ⁻¹ p.1, p.2.1, p.2.2))
    simpa using h

theorem block2batch_perm {nb bs : ℕ} {V : Type} [AddCommMonoid V]
    [Module ℚ V] (σ : Equiv.Perm (Fin nb)) (M : Fin nb → Fin bs → ℚ)
    (x : Fin nb → V) (j : Fin bs) :
    block2batch (fun i j' => M (σ i) j') (fun i => x (σ i)) j
      = block2batch M x j := by
  unfold block2batch
  exact Equiv.sum_comp σ (fun i => M i j • x i)

theorem block_softmax_perm (E : WithBot ℚ → ℚ) {nb bs : ℕ} {R K : Type}
    [Fintype R] [Fintype K] (σ : Equiv.Perm (Fin nb))
    (M : Fin nb → Fin bs → ℚ) (attn : Fin nb → R → K → WithBot ℚ)
    (i : Fin nb) (r : R) (k : K) :
    block_softmax E (fun i j => M (σ i) j) (fun i => attn (σ i)) i r k
      = block_softmax E M attn (σ i) r k := by
  have hexp : ∀ i r k,
      bsExp E (fun i' => attn (σ i')) i r k = bsExp E attn (σ i) r k := by
    intro i r k
    unfold bsExp
    rw [gmax_perm]
  have hsums : bsSums E (fun i' => attn (σ i'))
      = fun i => bsSums E attn (σ i) := by
    funext i r
    unfold bsSums
    exact Finset.sum_congr rfl fun k _ => hexp i r k
  have hden : bsDenom E (fun i j => M (σ i) j) (fun i' => attn (σ i')) i r
      = bsDenom E M attn (σ i) r := by
    unfold bsDenom
    rw [hsums]
    have hb2b : block2batch (fun i j' => M (σ i) j')
        (fun i => bsSums E attn (σ i)) = block2batch M (bsSums E attn) :=
      funext fun j => block2batch_perm σ M (bsSums E attn) j
    rw [hb2b]
    rfl
  unfold block_softmax
  rw [hexp, hden]

/-- C3: `flat_pa` is invariant under any permutation of the blocks, applied
consistently to `block_list`, the rows of `block_mapping`, and the rows of
`block_bias` (with keys/values fetched by the spec's cache gather). -/
theorem C3_decode_permutation_invariance (E : WithBot ℚ → ℚ)
    {bs nb blk hd pool kvh g : ℕ} (σ : Equiv.Perm (Fin nb))
    (query : Fin bs → Fin (kvh * g) → Fin hd → ℚ)
    (key_cache value_cache : Fin pool → Fin blk → Fin kvh → Fin hd → ℚ)
    (block_list : Fin nb → Fin pool) (M : Fin nb → Fin bs → ℚ)
    (block_bias : Fin nb → Fin blk → WithBot ℚ) (scale : ℚ)
    (b : Fin bs) (f : Fin (kvh * g)) (d : Fin hd) :
    flat_pa E query key_cache value_cache (fun i => block_list (σ i))
        (fun i j => M (σ i) j) (fun i t => block_bias (σ i) t) scale
        fetchGather fetchGather b f d
      = flat_pa E query key_cache value_cache block_list M block_bias scale
          fetchGather fetchGather b f d := by
  simp only [flat_pa]
  by_cases hq : kvh * g = kvh
  · simp only [dif_pos hq]
    have hAttn : plainAttn hq
        (scaledQuery (fun i j => M (σ i) j) scale query)
        (transp12 (fetchGather key_cache (fun i => block_list (σ i))))
        (fun i t => block_bias (σ i) t)
        = fun i => plainAttn hq (scaledQuery M scale query)
            (transp12 (fetchGather key_cache block_list)) block_bias (σ i) :=
      rfl
    rw [hAttn]
    have hAV : attnAV (block_softmax E (fun i j => M (σ i) j)
          (fun i => plainAttn hq (scaledQuery M scale query)
            (transp12 (fetchGather key_cache block_list)) block_bias (σ i)))
          (transp12 (fetchGather value_cache (fun i => block_list (σ i))))
          (fun a => Fin.cast hq a)
        = fun i => attnAV (block_softmax E M
            (plainAttn hq (scaledQuery M scale query)
              (transp12 (fetchGather key_cache block_list)) block_bias))
            (transp12 (fetchGather value_cache block_list))
            (fun a => Fin.cast hq a) (σ i) := by
      funext i a d'
      unfold attnAV
      refine Finset.sum_congr rfl fun j _ => ?_
      rw [block_softmax_perm]
      rfl
    rw [hAV, block2batch_perm]
  · simp only [dif_neg hq]
    have hAttn : groupedAttn
        (scaledQuery (fun i j => M (σ i) j) scale query)
        (transp12 (fetchGather key_cache (fun i => block_list (σ i))))
        (fun i t => block_bias (σ i) t)
        = fun i => groupedAttn (scaledQuery M scale query)
            (transp12 (fetchGather key_cache block_list)) block_bias (σ i) :=
      rfl
    rw [hAttn]
    have hAV : attnAV (block_softmax E (fun i j => M (σ i) j)
          (fun i => groupedAttn (scaledQuery M scale query)
            (transp12 (fetchGather key_cache block_list)) block_bias (σ i)))
          (transp12 (fetchGather value_cache (fun i => block_list (σ i))))
          Prod.fst
        = fun i => attnAV (block_softmax E M
            (groupedAttn (scaledQuery M scale query)
              (transp12 (fetchGather key_cache block_list)) block_bias))
            (transp12 (fetchGather value_cache block_list)) Prod.fst
            (σ i) := by
      funext i p d'
      unfold attnAV
      refine Finset.sum_congr rfl fun j _ => ?_
      rw [block_softmax_perm]
      rfl
    rw [hAV, block2batch_perm]

/-! ### C5: cross-sequence noninterference -/

/-- Helper: the concrete kernel Estep has the exponential-like properties. -/
theorem Estep_expLike : ExpLike Estep := by
  refine ⟨rfl, ?_, ?_, ?_⟩
  · rw [Estep_coe]
    norm_num
  · intro x y hxy
    induction x using WithBot.recBotCoe with
    | bot =>
        rw [Estep_bot]
        exact Estep_nonneg y
    | coe a =>
        induction y using WithBot.recBotCoe with
        | bot => exact absurd hxy (by simp)
        | coe b =>
            have hab : a ≤ b := WithBot.coe_le_coe.mp hxy
            rw [Estep_coe, Estep_coe]
            split_ifs with h1 h2 h3
            · norm_num
            · norm_num
            · exact absurd h3 (by linarith)
            · norm_num
  · intro q
    rw [Estep_coe]
    split <;> norm_num

/-- Helper: the global maximum of a two-block, single-head, block-size-one
score tensor. -/
theorem gmax_two (attn : Fin 2 → Fin 1 → Fin 1 → WithBot ℚ) :
    gmax attn = max (attn 0 0 0) (attn 1 0 0) := by
  unfold gmax
  apply le_antisymm
  · refine Finset.sup_le fun p _ => ?_
    rcases p with ⟨i, r, k⟩
    fin_cases i <;> fin_cases r <;> fin_cases k
    · exact le_max_left _ _
    · exact le_max_right _ _
  · apply max_le
    · exact Finset.le_sup
        (f := fun p : Fin 2 × Fin 1 × Fin 1 => attn p.1 p.2.1 p.2.2)
        (Finset.mem_univ (0, 0, 0))
    · exact Finset.le_sup
        (f := fun p : Fin 2 × Fin 1 × Fin 1 => attn p.1 p.2.1 p.2.2)
        (Finset.mem_univ (1, 0, 0))

/-- Helper: a decode output row depends only on the scores and values of the
blocks its batch element owns, plus the global score maximum. -/
theorem decode_row_only_owned (E : WithBot ℚ → ℚ) {nb bs blk kvh hd : ℕ}
    {R : Type} [Fintype R] {M : Fin nb → Fin bs → ℚ} {ow : Fin nb → Fin bs}
    (hM : IsOneHot M ow) (j : Fin bs)
    (A A' : Fin nb → R → Fin blk → WithBot ℚ)
    (vT vT' : Fin nb → Fin kvh → Fin blk → Fin hd → ℚ) (hmap : R → Fin kvh)
    (hA : ∀ i, ow i = j → ∀ r t, A i r t = A' i r t)
    (hV : ∀ i, ow i = j → ∀ h t dd, vT i h t dd = vT' i h t dd)
    (hg : gmax A = gmax A') (r : R) (d : Fin hd) :
    block2batch M (attnAV (block_softmax E M A) vT hmap) j r d
      = block2batch M (attnAV (block_softmax E M A') vT' hmap) j r d := by
  have hexp : ∀ i', ow i' = j → ∀ r' t',
      bsExp E A i' r' t' = bsExp E A' i' r' t' := by
    intro i' hj' r' t'
    unfold bsExp
    rw [hA i' hj', hg]
  simp only [block2batch_onehot hM, Finset.sum_apply]
  refine Finset.sum_congr rfl fun i hi => ?_
  have hij : ow i = j := (Finset.mem_filter.mp hi).2
  unfold attnAV
  refine Finset.sum_congr rfl fun t _ => ?_
  rw [hV i hij (hmap r) t d]
  congr 1
  unfold block_softmax
  rw [hexp i hij r t]
  congr 1
  unfold bsDenom
  simp only [batch2block_onehot hM, block2batch_onehot hM, Finset.sum_apply]
  congr 1
  refine Finset.sum_congr rfl fun i' hi' => ?_
  have hij' : ow i' = j := ((Finset.mem_filter.mp hi').2).trans hij
  unfold bsSums
  exact Finset.sum_congr rfl fun t' _ => hexp i' hij' r t'

/-- C5 (amended): for a decode batch with a one-hot block mapping, changing
the cached keys/values of blocks NOT owned by batch element `j` leaves `j`'s
output row of `flat_pa` unchanged, PROVIDED the global maximum of the score
tensor is unchanged.  (Sequence 2's data reaches sequence 1's row only
through the global maximum combined with the epsilon guard; with an
unchanged maximum there is no cross-talk.) -/
theorem C5_noninterference_modulo_global_max (E : WithBot ℚ → ℚ)
    {bs nb blk hd pool kvh g : ℕ} {M : Fin nb → Fin bs → ℚ}
    {ow : Fin nb → Fin bs} (hM : IsOneHot M ow) (j : Fin bs)
    (query : Fin bs → Fin (kvh * g) → Fin hd → ℚ)
    (kc vc kc' vc' : Fin pool → Fin blk → Fin kvh → Fin hd → ℚ)
    (bl : Fin nb → Fin pool) (bias : Fin nb → Fin blk → WithBot ℚ)
    (scale : ℚ)
    (hkc : ∀ i, ow i = j → ∀ t h dd, kc (bl i) t h dd = kc' (bl i) t h dd)
    (hvc : ∀ i, ow i = j → ∀ t h dd, vc (bl i) t h dd = vc' (bl i) t h dd)
    (hmax : flatPaScoresMax query kc bl M bias scale fetchGather
        = flatPaScoresMax query kc' bl M bias scale fetchGather)
    (f : Fin (kvh * g)) (d : Fin hd) :
    flat_pa E query kc vc bl M bias scale fetchGather fetchGather j f d
      = flat_pa E query kc' vc' bl M bias scale fetchGather fetchGather
          j f d := by
  simp only [flat_pa, flatPaScoresMax] at hmax ⊢
  by_cases hq : kvh * g = kvh
  · simp only [dif_pos hq] at hmax ⊢
    refine decode_row_only_owned E hM j _ _ _ _ _ ?_ ?_ hmax f d
    · intro i hij a t
      unfold plainAttn transp12 fetchGather
      have hsum : (∑ dd, scaledQuery M scale query i a dd
            * kc (bl i) t (Fin.cast hq a) dd)
          = ∑ dd, scaledQuery M scale query i a dd
            * kc' (bl i) t (Fin.cast hq a) dd :=
        Finset.sum_congr rfl fun dd _ => by
          rw [hkc i hij t (Fin.cast hq a) dd]
      rw [hsum]
    · intro i hij h t dd
      unfold transp12 fetchGather
      exact hvc i hij t h dd
  · simp only [dif_neg hq] at hmax ⊢
    refine decode_row_only_owned E hM j _ _ _ _ _ ?_ ?_ hmax
      (fdiv f, fmod f) d
    · intro i hij p t
      unfold groupedAttn transp12 fetchGather
      have hsum : (∑ dd, scaledQuery M scale query i (fpair p.1 p.2) dd
            * kc (bl i) t p.1 dd)
          = ∑ dd, scaledQuery M scale query i (fpair p.1 p.2) dd
            * kc' (bl i) t p.1 dd :=
        Finset.sum_congr rfl fun dd _ => by rw [hkc i hij t p.1 dd]
      rw [hsum]
    · intro i hij h t dd
      unfold transp12 fetchGather
      exact hvc i hij t h dd

/-- Witness for C5_noninterference_modulo_global_max: changing only
sequence 1's cached VALUE row leaves the score tensor (hence its maximum)
untouched, and sequence 0's output row is unchanged. -/
theorem C5_witness :
    IsOneHot M2 (fun i => i)
    ∧ (∀ i : Fin 2, i = (0 : Fin 2) → ∀ t h dd : Fin 1,
        vc2 (bl2 i) t h dd
          = (fun p (_ : Fin 1) (_ : Fin 1) (_ : Fin 1) =>
              if p = 0 then (1 : ℚ) else 9) (bl2 i) t h dd)
    ∧ flat_pa Estep q2 kcA vc2 bl2 M2 bias2 1 fetchGather fetchGather 0 0 0
      = flat_pa Estep q2 kcA
          (fun p (_ : Fin 1) (_ : Fin 1) (_ : Fin 1) =>
            if p = 0 then (1 : ℚ) else 9)
          bl2 M2 bias2 1 fetchGather fetchGather 0 0 0 :=
  ⟨by decide, by decide,
    @C5_noninterference_modulo_global_max Estep 2 2 1 1 2 1 1 M2
      (fun i => i) (by decide) 0 q2 kcA vc2 kcA
      (fun p (_ : Fin 1) (_ : Fin 1) (_ : Fin 1) =>
        if p = 0 then (1 : ℚ) else 9)
      bl2 bias2 1 (fun _ _ _ _ _ => rfl) (by decide) rfl 0 0⟩

/-- Helper: closed-form evaluation of `flat_pa` on the two-sequence fixture,
for any key cache whose resulting per-block scores are `s` with global
maximum `m`: sequence 0's output is its shifted exponential over the
epsilon-guarded denominator. -/
theorem flat_pa_2eval (kc : Fin 2 → Fin 1 → Fin 1 → Fin 1 → ℚ)
    (s : Fin 2 → ℚ)
    (hs : plainAttn (show (1 * 1 : ℕ) = 1 from rfl) (scaledQuery M2 1 q2)
        (transp12 (fetchGather kc bl2)) bias2
      = fun i _ _ => ((s i : ℚ) : WithBot ℚ))
    (m : ℚ)
    (hm : max ((s 0 : ℚ) : WithBot ℚ) ((s 1 : ℚ) : WithBot ℚ)
        = ((m : ℚ) : WithBot ℚ)) :
    flat_pa Estep q2 kc vc2 bl2 M2 bias2 1 fetchGather fetchGather 0 0 0
      = Estep ((s 0 - m : ℚ) : WithBot ℚ)
        / (Estep ((s 0 - m : ℚ) : WithBot ℚ) + (1e-12 : ℚ)) := by
  have hM2 : IsOneHot M2 (fun i => i) := by decide
  have hfil : Finset.univ.filter
      (fun i : Fin 2 => (fun i : Fin 2 => i) i = (0 : Fin 2)) = {0} := by
    decide
  simp only [flat_pa]
  rw [dif_pos trivial, hs]
  rw [block2batch_onehot hM2]
  simp only [Finset.sum_apply, hfil, Finset.sum_singleton]
  unfold attnAV
  rw [Fin.sum_univ_one]
  unfold block_softmax bsDenom bsSums
  simp only [batch2block_onehot hM2, block2batch_onehot hM2,
    Finset.sum_apply, hfil, Finset.sum_singleton, Fin.sum_univ_one]
  unfold bsExp
  rw [gmax_two]
  simp only []
  rw [hm]
  simp [subMax, transp12, fetchGather, vc2, bl2]

/-- C5 fails as stated: the two key caches agree on the block owned by
sequence 0 and differ only in sequence 1's block, the exponential kernel has
the exponential-like properties, yet sequence 0's decode output differs —
sequence 1's cached keys move the global score maximum, which interacts with
the 1.0e-12 epsilon guard in sequence 0's denominator. -/
theorem C5_counterexample :
    ExpLike Estep
    ∧ (∀ t h dd : Fin 1, kcA 0 t h dd = kcB 0 t h dd)
    ∧ flat_pa Estep q2 kcA vc2 bl2 M2 bias2 1 fetchGather fetchGather 0 0 0
      ≠ flat_pa Estep q2 kcB vc2 bl2 M2 bias2 1 fetchGather fetchGather
          0 0 0 := by
  have hq1 : scaledQuery M2 1 q2 = fun _ _ _ => (1 : ℚ) := by
    funext i a dd
    unfold scaledQuery batch2block M2 q2
    fin_cases i <;>
      simp [Finset.sum_apply, Pi.smul_apply, smul_eq_mul, Fin.sum_univ_two]
  have hsA : plainAttn (show (1 * 1 : ℕ) = 1 from rfl) (scaledQuery M2 1 q2)
      (transp12 (fetchGather kcA bl2)) bias2
      = fun i _ _ => (((fun _ : Fin 2 => (0 : ℚ)) i : ℚ) : WithBot ℚ) := by
    funext i a t
    simp [plainAttn, transp12, fetchGather, kcA, bias2, ← WithBot.coe_add]
  have hsB : plainAttn (show (1 * 1 : ℕ) = 1 from rfl) (scaledQuery M2 1 q2)
      (transp12 (fetchGather kcB bl2)) bias2
      = fun i _ _ =>
          (((fun i : Fin 2 => if i = 0 then (0 : ℚ) else 5) i : ℚ)
            : WithBot ℚ) := by
    funext i a t
    unfold plainAttn transp12 fetchGather kcB bl2 bias2
    rw [hq1]
    fin_cases i <;> simp [Fin.sum_univ_one, ← WithBot.coe_add]
  have hmA : max (((0 : ℚ) : ℚ) : WithBot ℚ) (((0 : ℚ) : ℚ) : WithBot ℚ)
      = (((0 : ℚ) : ℚ) : WithBot ℚ) := max_self _
  have hmB : max
        (((if (0 : Fin 2) = 0 then (0 : ℚ) else 5 : ℚ) : ℚ) : WithBot ℚ)
        (((if (1 : Fin 2) = 0 then (0 : ℚ) else 5 : ℚ) : ℚ) : WithBot ℚ)
      = ((5 : ℚ) : WithBot ℚ) := by
    rw [if_pos rfl, if_neg (by decide)]
    exact max_eq_right (WithBot.coe_le_coe.mpr (by norm_num))
  refine ⟨Estep_expLike, ?_, ?_⟩
  · intro t h dd
    rfl
  · rw [flat_pa_2eval kcA (fun _ => (0 : ℚ)) hsA 0 hmA,
      flat_pa_2eval kcB (fun i => if i = 0 then (0 : ℚ) else 5) hsB 5 hmB]
    rw [if_pos rfl]
    rw [show ((0 : ℚ) - 0) = (0 : ℚ) by norm_num,
      show ((0 : ℚ) - 5) = (-5 : ℚ) by norm_num]
    rw [Estep_coe, Estep_coe]
    norm_num

/-! ### C6: grouped-query attention equals repeated-kv-head attention -/

theorem fpair_fdiv_fmod {m n : ℕ} (f : Fin (m * n)) :
    fpair (fdiv f) (fmod f) = f :=
  fsplitEquiv.left_inv f

theorem gmax_reindex {nb : ℕ} {R R' K : Type} [Fintype R] [Fintype R']
    [Fintype K] (attn : Fin nb → R → K → WithBot ℚ) (e : R' ≃ R) :
    gmax (fun i r' k => attn i (e r') k) = gmax attn := by
  unfold gmax
  apply le_antisymm
  · refine Finset.sup_le fun p _ => ?_
    exact Finset.le_sup
      (f := fun p : Fin nb × R × K => attn p.1 p.2.1 p.2.2)
      (Finset.mem_univ (p.1, e p.2.1, p.2.2))
  · refine Finset.sup_le fun p _ => ?_
    have h := Finset.le_sup
      (f := fun q : Fin nb × R' × K => attn q.1 (e q.2.1) q.2.2)
      (Finset.mem_univ (p.1, e.symm p.2.1, p.2.2))
    simpa using h

theorem block_softmax_reindex (E : WithBot ℚ → ℚ) {nb bs : ℕ}
    {R R' K : Type} [Fintype R] [Fintype R'] [Fintype K]
    (M : Fin nb → Fin bs → ℚ) (attn : Fin nb → R → K → WithBot ℚ)
    (e : R' ≃ R) (i : Fin nb) (r' : R') (k : K) :
    block_softmax E M (fun i r' k => attn i (e r') k) i r' k
      = block_softmax E M attn i (e r') k := by
  have hexp : ∀ i r' k,
      bsExp E (fun i r' k => attn i (e r') k) i r' k
        = bsExp E attn i (e r') k := by
    intro i r' k
    unfold bsExp
    rw [gmax_reindex]
  have hden : bsDenom E M (fun i r' k => attn i (e r') k) i r'
      = bsDenom E M attn i (e r') := by
    unfold bsDenom
    congr 1
    rw [batch2block_applyV, batch2block_applyV]
    congr 1
    funext j
    rw [block2batch_applyV, block2batch_applyV]
    congr 1
    funext i'
    unfold bsSums
    exact Finset.sum_congr rfl fun k' _ => hexp i' r' k'
  unfold block_softmax
  rw [hexp, hden]

/-- The prompt_attention half of C6: with a bias supplied (the head-group
handling lives on that path), grouped-query prompt attention at query head
count `kvh * g` equals equal-head-count prompt attention run on keys/values
with every kv head repeated `g` times (row-major, head `a` serving query
heads `a*g..a*g+g-1`). -/
theorem prompt_grouped_eq_repeated (E : WithBot ℚ → ℚ) (hasFSDPA : Bool)
    {b sq sk kvh g hd : ℕ}
    (fsdpaOp :
      (Fin b → Fin sq → Fin (kvh * g) → Fin hd → ℚ) →
      (Fin b → Fin sk → Fin kvh → Fin hd → ℚ) →
      (Fin b → Fin sk → Fin kvh → Fin hd → ℚ) → ℚ → Option (Fin b → ℕ) →
      (Fin b → Fin sq → Fin (kvh * g) → Fin hd → ℚ))
    (fsdpaOp' :
      (Fin b → Fin sq → Fin (kvh * g * 1) → Fin hd → ℚ) →
      (Fin b → Fin sk → Fin (kvh * g) → Fin hd → ℚ) →
      (Fin b → Fin sk → Fin (kvh * g) → Fin hd → ℚ) → ℚ →
      Option (Fin b → ℕ) →
      (Fin b → Fin sq → Fin (kvh * g * 1) → Fin hd → ℚ))
    (query : Fin b → Fin sq → Fin (kvh * g) → Fin hd → ℚ)
    (key value : Fin b → Fin sk → Fin kvh → Fin hd → ℚ)
    (B : Fin b → Fin sq → Fin sk → WithBot ℚ) (scale : ℚ)
    (vsl vsl' : Option (Fin b → ℕ))
    (i : Fin b) (t : Fin sq) (f : Fin (kvh * g)) (d : Fin hd) :
    prompt_attention E hasFSDPA fsdpaOp query key value (some B) scale vsl
        i t f d
      = @prompt_attention E hasFSDPA b sq sk (kvh * g) 1 hd fsdpaOp'
          (fun i t a d => query i t (Fin.cast (Nat.mul_one (kvh * g)) a) d)
          (fun i j a d => key i j (fdiv a) d)
          (fun i j a d => value i j (fdiv a) d)
          (some B) scale vsl' i t
          (Fin.cast (Nat.mul_one (kvh * g)).symm f) d := by
  simp only [prompt_attention, Option.isSome_some, Bool.true_or, if_true]
  unfold promptAttentionNaive
  rw [dif_pos (Nat.mul_one (kvh * g))]
  have hx : Fin.cast (Nat.mul_one (kvh * g))
      (Fin.cast (Nat.mul_one (kvh * g)).symm f) = f := Fin.ext rfl
  by_cases hq : kvh * g = kvh
  · rcases Nat.eq_zero_or_pos kvh with h0 | hpos
    · exact absurd f.2 (by simp [h0])
    · have hg1 : g = 1 :=
        Nat.eq_of_mul_eq_mul_left hpos (by rw [hq, Nat.mul_one])
      subst hg1
      rw [dif_pos hq]
      have hdv : fdiv (Fin.cast (Nat.mul_one (kvh * 1))
          (Fin.cast (Nat.mul_one (kvh * 1)).symm f)) = Fin.cast hq f :=
        Fin.ext (by simp [fdiv])
      unfold ppPlainScores rowSoftmax
      simp only [hx]
      refine Finset.sum_congr rfl fun j _ => ?_
      have hdv' : fdiv f = Fin.cast hq f := Fin.ext (by simp [fdiv])
      rw [hdv']
  · rw [dif_neg hq]
    unfold ppGroupedScores ppPlainScores rowSoftmax
    simp only [hx]
    refine Finset.sum_congr rfl fun j _ => ?_
    rw [fpair_fdiv_fmod]

/-- The flat_pa half of C6: grouped-query decode attention at query head
count `kvh * g` equals equal-head-count decode attention run against caches
with every kv head repeated `g` times. -/
theorem flat_pa_grouped_eq_repeated (E : WithBot ℚ → ℚ)
    {bs nb blk hd pool kvh g : ℕ}
    (query : Fin bs → Fin (kvh * g) → Fin hd → ℚ)
    (kc vc : Fin pool → Fin blk → Fin kvh → Fin hd → ℚ)
    (bl : Fin nb → Fin pool) (M : Fin nb → Fin bs → ℚ)
    (bias : Fin nb → Fin blk → WithBot ℚ) (scale : ℚ)
    (bb : Fin bs) (f : Fin (kvh * g)) (d : Fin hd) :
    flat_pa E query kc vc bl M bias scale fetchGather fetchGather bb f d
      = @flat_pa E bs nb blk hd pool (kvh * g) 1
          (fun b a d => query b (Fin.cast (Nat.mul_one (kvh * g)) a) d)
          (fun p t a d => kc p t (fdiv a) d)
          (fun p t a d => vc p t (fdiv a) d)
          bl M bias scale fetchGather fetchGather bb
          (Fin.cast (Nat.mul_one (kvh * g)).symm f) d := by
  simp only [flat_pa]
  rw [dif_pos (Nat.mul_one (kvh * g))]
  by_cases hq : kvh * g = kvh
  · rcases Nat.eq_zero_or_pos kvh with h0 | hpos
    · exact absurd f.2 (by simp [h0])
    · have hg1 : g = 1 :=
        Nat.eq_of_mul_eq_mul_left hpos (by rw [hq, Nat.mul_one])
      subst hg1
      rw [dif_pos hq]
      have hidx : ∀ a : Fin (kvh * 1 * 1),
          fdiv (Fin.cast (Nat.mul_one (kvh * 1)) a)
            = Fin.cast hq (Fin.cast (Nat.mul_one (kvh * 1)) a) :=
        fun a => Fin.ext (by simp [fdiv])
      have hscores : plainAttn (Nat.mul_one (kvh * 1))
          (scaledQuery M scale
            (fun b a d => query b (Fin.cast (Nat.mul_one (kvh * 1)) a) d))
          (transp12 (fetchGather (fun p t a d => kc p t (fdiv a) d) bl)) bias
          = fun i a j => plainAttn hq (scaledQuery M scale query)
              (transp12 (fetchGather kc bl)) bias i
              (finCongr (Nat.mul_one (kvh * 1)) a) j := by
        funext i a j
        unfold plainAttn transp12 fetchGather scaledQuery batch2block
        simp only [Finset.sum_apply, Pi.smul_apply, smul_eq_mul,
          finCongr_apply]
        rw [hidx a]
      rw [hscores]
      have hsm : block_softmax E M
          (fun i a j => plainAttn hq (scaledQuery M scale query)
            (transp12 (fetchGather kc bl)) bias i
            (finCongr (Nat.mul_one (kvh * 1)) a) j)
          = fun i a j => block_softmax E M
              (plainAttn hq (scaledQuery M scale query)
                (transp12 (fetchGather kc bl)) bias) i
              (finCongr (Nat.mul_one (kvh * 1)) a) j :=
        funext fun i => funext fun a => funext fun j =>
          block_softmax_reindex E M _ (finCongr (Nat.mul_one (kvh * 1))) i a j
      rw [hsm]
      have hav : attnAV
          (fun i a j => block_softmax E M
            (plainAttn hq (scaledQuery M scale query)
              (transp12 (fetchGather kc bl)) bias) i
            (finCongr (Nat.mul_one (kvh * 1)) a) j)
          (transp12 (fetchGather (fun p t a d => vc p t (fdiv a) d) bl))
          (fun y => Fin.cast (Nat.mul_one (kvh * 1)) y)
          = fun i a d' => attnAV
              (block_softmax E M
                (plainAttn hq (scaledQuery M scale query)
                  (transp12 (fetchGather kc bl)) bias))
              (transp12 (fetchGather vc bl)) (fun y => Fin.cast hq y)
              i (finCongr (Nat.mul_one (kvh * 1)) a) d' := by
        funext i a d'
        unfold attnAV transp12 fetchGather
        simp only [finCongr_apply]
        refine Finset.sum_congr rfl fun j _ => ?_
        rw [hidx a]
      rw [hav]
      unfold block2batch
      simp only [Finset.sum_apply, Pi.smul_apply, smul_eq_mul]
      have hef : finCongr (Nat.mul_one (kvh * 1))
          (Fin.cast (Nat.mul_one (kvh * 1)).symm f) = f :=
        Fin.ext (by simp)
      rw [hef]
  · rw [dif_neg hq]
    have hpr : ∀ a : Fin (kvh * g * 1),
        ((finCongr (Nat.mul_one (kvh * g))).trans fsplitEquiv) a
          = (fdiv (Fin.cast (Nat.mul_one (kvh * g)) a),
            fmod (Fin.cast (Nat.mul_one (kvh * g)) a)) := by
      intro a
      simp [fsplitEquiv, Equiv.trans_apply]
    have hscores : plainAttn (Nat.mul_one (kvh * g))
        (scaledQuery M scale
          (fun b a d => query b (Fin.cast (Nat.mul_one (kvh * g)) a) d))
        (transp12 (fetchGather (fun p t a d => kc p t (fdiv a) d) bl)) bias
        = fun i a j => groupedAttn (scaledQuery M scale query)
            (transp12 (fetchGather kc bl)) bias i
            (((finCongr (Nat.mul_one (kvh * g))).trans fsplitEquiv) a) j := by
      funext i a j
      rw [hpr a]
      unfold plainAttn groupedAttn transp12 fetchGather scaledQuery
        batch2block
      simp only [Finset.sum_apply, Pi.smul_apply, smul_eq_mul]
      rw [fpair_fdiv_fmod]
    rw [hscores]
    have hsm : block_softmax E M
        (fun i a j => groupedAttn (scaledQuery M scale query)
          (transp12 (fetchGather kc bl)) bias i
          (((finCongr (Nat.mul_one (kvh * g))).trans fsplitEquiv) a) j)
        = fun i a j => block_softmax E M
            (groupedAttn (scaledQuery M scale query)
              (transp12 (fetchGather kc bl)) bias) i
            (((finCongr (Nat.mul_one (kvh * g))).trans fsplitEquiv) a) j :=
      funext fun i => funext fun a => funext fun j =>
        block_softmax_reindex E M _
          ((finCongr (Nat.mul_one (kvh * g))).trans fsplitEquiv) i a j
    rw [hsm]
    have hav : attnAV
        (fun i a j => block_softmax E M
          (groupedAttn (scaledQuery M scale query)
            (transp12 (fetchGather kc bl)) bias) i
          (((finCongr (Nat.mul_one (kvh * g))).trans fsplitEquiv) a) j)
        (transp12 (fetchGather (fun p t a d => vc p t (fdiv a) d) bl))
        (fun y => Fin.cast (Nat.mul_one (kvh * g)) y)
        = fun i a d' => attnAV
            (block_softmax E M
              (groupedAttn (scaledQuery M scale query)
                (transp12 (fetchGather kc bl)) bias))
            (transp12 (fetchGather vc bl)) Prod.fst i
            (((finCongr (Nat.mul_one (kvh * g))).trans fsplitEquiv) a)
            d' := by
      funext i a d'
      unfold attnAV transp12 fetchGather
      simp only []
      rw [hpr a]
    rw [hav]
    unfold block2batch
    simp only [Finset.sum_apply, Pi.smul_apply, smul_eq_mul]
    have hef : ((finCongr (Nat.mul_one (kvh * g))).trans fsplitEquiv)
        (Fin.cast (Nat.mul_one (kvh * g)).symm f) = (fdiv f, fmod f) := by
      rw [hpr]
      exact Prod.ext (Fin.ext rfl) (Fin.ext rfl)
    rw [hef]

/-- C6: grouped-query attention (query heads a multiple of kv heads)
produces, in both the prompt_attention head-group unflatten/flatten and the
corresponding unflatten in flat_pa, output identical to first repeating each
kv head `queryheads / kvheads` times and running the same attention with
matched head counts. -/
theorem C6_grouped_query_equivalence (E : WithBot ℚ → ℚ) (hasFSDPA : Bool)
    {b sq sk kvh g hd : ℕ}
    (fsdpaOp :
      (Fin b → Fin sq → Fin (kvh * g) → Fin hd → ℚ) →
      (Fin b → Fin sk → Fin kvh → Fin hd → ℚ) →
      (Fin b → Fin sk → Fin kvh → Fin hd → ℚ) → ℚ → Option (Fin b → ℕ) →
      (Fin b → Fin sq → Fin (kvh * g) → Fin hd → ℚ))
    (fsdpaOp' :
      (Fin b → Fin sq → Fin (kvh * g * 1) → Fin hd → ℚ) →
      (Fin b → Fin sk → Fin (kvh * g) → Fin hd → ℚ) →
      (Fin b → Fin sk → Fin (kvh * g) → Fin hd → ℚ) → ℚ →
      Option (Fin b → ℕ) →
      (Fin b → Fin sq → Fin (kvh * g * 1) → Fin hd → ℚ))
    (query : Fin b → Fin sq → Fin (kvh * g) → Fin hd → ℚ)
    (key value : Fin b → Fin sk → Fin kvh → Fin hd → ℚ)
    (B : Fin b → Fin sq → Fin sk → WithBot ℚ) (scale : ℚ)
    (vsl vsl' : Option (Fin b → ℕ))
    (i : Fin b) (t : Fin sq) (f : Fin (kvh * g)) (d : Fin hd)
    {bs nb blk pool : ℕ}
    (dquery : Fin bs → Fin (kvh * g) → Fin hd → ℚ)
    (kc vc : Fin pool → Fin blk → Fin kvh → Fin hd → ℚ)
    (bl : Fin nb → Fin pool) (M : Fin nb → Fin bs → ℚ)
    (dbias : Fin nb → Fin blk → WithBot ℚ) (dscale : ℚ)
    (bb : Fin bs) (df : Fin (kvh * g)) (dd : Fin hd) :
    (prompt_attention E hasFSDPA fsdpaOp query key value (some B) scale vsl
        i t f d
      = @prompt_attention E hasFSDPA b sq sk (kvh * g) 1 hd fsdpaOp'
          (fun i t a d => query i t (Fin.cast (Nat.mul_one (kvh * g)) a) d)
          (fun i j a d => key i j (fdiv a) d)
          (fun i j a d => value i j (fdiv a) d)
          (some B) scale vsl' i t
          (Fin.cast (Nat.mul_one (kvh * g)).symm f) d)
    ∧ (flat_pa E dquery kc vc bl M dbias dscale fetchGather fetchGather
        bb df dd
      = @flat_pa E bs nb blk hd pool (kvh * g) 1
          (fun b a d => dquery b (Fin.cast (Nat.mul_one (kvh * g)) a) d)
          (fun p t a d => kc p t (fdiv a) d)
          (fun p t a d => vc p t (fdiv a) d)
          bl M dbias dscale fetchGather fetchGather bb
          (Fin.cast (Nat.mul_one (kvh * g)).symm df) dd) :=
  ⟨prompt_grouped_eq_repeated E hasFSDPA fsdpaOp fsdpaOp' query key value
      B scale vsl vsl' i t f d,
   flat_pa_grouped_eq_repeated E dquery kc vc bl M dbias dscale bb df dd⟩

end VllmHpu
